import Mathlib

/-!
Verification of `gcp-ips` (`main.go`), a tool that inventories IP-address
usage across the projects of a shared VPC and reports it per subnet.

Shallow embedding conventions:
* Go structs become Lean structures with the same field names; of the
  generated API types (`compute.Address`, `compute.Instance`, ...) only the
  fields `main.go` reads are modelled.
* A nilable Go slice or pointer becomes an `Option`.
* A Go `map` becomes an association list; `main.go` builds its maps only
  through `insertAddressInfo` (IP map) and appending to a bucket (subnet
  map), which we model with first-match update functions.
* Out-of-range slice indexing panics in Go, so the functions that index
  `address.Users[0]` / `instance.NetworkInterfaces[0]` return `Option`.
* `log.Fatal` terminates the process with a non-zero exit; a function that
  can reach `log.Fatal` is modelled in `Except String`, where `.error`
  stands for the fatal halt.  The external fetches themselves (network
  calls) are parameters of the model.
-/

namespace GcpIps

/-- Projection of `compute.NetworkInterface`: `flatten` reads `NetworkIP`
and `Subnetwork` (main.go lines 203-204). -/
structure NetworkInterface where
  NetworkIP : String
  Subnetwork : String
deriving DecidableEq

/-- Projection of `compute.Instance`: `flatten` reads `Name` and
`NetworkInterfaces` (main.go lines 200-206). -/
structure Instance where
  Name : String
  NetworkInterfaces : List NetworkInterface
deriving DecidableEq

/-- Projection of `compute.InstancesScopedList`: the `Instances` slice can
be nil, which `flatten` tests before iterating (main.go line 199). -/
structure InstancesScopedList where
  Instances : Option (List Instance)
deriving DecidableEq

/-- Projection of `compute.InstanceAggregatedList`: its `Items` map is
modelled as the list of its values in iteration order (main.go line 198). -/
structure InstanceAggregatedList where
  Items : List InstancesScopedList
deriving DecidableEq

/-- Projection of `compute.Address`: `flatten` reads `Address` (the IP
string), `Status`, `Subnetwork` and the nilable `Users` slice
(main.go lines 177-190). -/
structure Address where
  Address : String
  Status : String
  Subnetwork : String
  Users : Option (List String)
deriving DecidableEq

/-- Projection of `compute.AddressesScopedList`: the `Addresses` slice can
be nil, which `flatten` tests before iterating (main.go line 176). -/
structure AddressesScopedList where
  Addresses : Option (List Address)
deriving DecidableEq

/-- Projection of `compute.AddressAggregatedList`: its `Items` map is
modelled as the list of its values in iteration order (main.go line 175). -/
structure AddressAggregatedList where
  Items : List AddressesScopedList
deriving DecidableEq

/-- The struct `projectResources` (main.go lines 30-34): per-project raw
collection result; either aggregated list is `none` when the corresponding
fetch failed. -/
structure projectResources where
  Project : String
  AddressList : Option AddressAggregatedList
  InstanceList : Option InstanceAggregatedList
deriving DecidableEq

/-- The struct `AddressInfo` (main.go lines 37-43). -/
structure AddressInfo where
  Project : String
  IP : String
  Status : String
  Subnet : String
  User : String
deriving DecidableEq

/-- The Go map `map[string]*AddressInfo`, modelled as an association list
keyed by IP. -/
abbrev AddressInfoMap := List (String × AddressInfo)

/-- Body of the merge branch of `insertAddressInfo` (main.go lines
145-154): the existing entry keeps every non-empty field; `Status`,
`Subnet` and `User` are filled from the candidate when empty.  `Project`
and `IP` are never touched. -/
def mergeAddressInfo (existingInfo addressInfo : AddressInfo) : AddressInfo :=
  { existingInfo with
    Status := if existingInfo.Status = "" then addressInfo.Status else existingInfo.Status
    Subnet := if existingInfo.Subnet = "" then addressInfo.Subnet else existingInfo.Subnet
    User := if existingInfo.User = "" then addressInfo.User else existingInfo.User }

/-- The function `insertAddressInfo` (main.go lines 139-158): key the map
by `addressInfo.IP`; a fresh IP is inserted as-is, an existing entry is
merged in place via `mergeAddressInfo`.  The Go map holds at most one
entry per key, so updating the first match models the mutation. -/
def insertAddressInfo : AddressInfoMap → AddressInfo → AddressInfoMap
  | [], addressInfo => [(addressInfo.IP, addressInfo)]
  | (k, v) :: rest, addressInfo =>
    if k = addressInfo.IP then (k, mergeAddressInfo v addressInfo) :: rest
    else (k, v) :: insertAddressInfo rest addressInfo

/-- Model of `strings.Split` for a one-character separator, written over
the character list of the string (`strings.Split` on a non-empty separator
always returns at least one piece). -/
def splitOnChar (sep : Char) : List Char → List (List Char)
  | [] => [[]]
  | c :: rest =>
    if c = sep then [] :: splitOnChar sep rest
    else
      match splitOnChar sep rest with
      | [] => [[c]]
      | g :: gs => (c :: g) :: gs

/-- The function `getName` (main.go lines 161-164): last `/`-separated
segment of a self-link. -/
def getName (selfLink : String) : String :=
  ⟨(splitOnChar '/' selfLink.data).getLastD []⟩

/-- C1 counterexample.  The claim lists `project` among the fields filled
from the second candidate when empty in the first, but `insertAddressInfo`
(main.go lines 145-154) never touches `Project`: with a first candidate
whose `Project` is empty and a second whose `Project` is `"svc-b"`, the
merged record's `Project` stays empty instead of becoming `"svc-b"`. -/
theorem insertAddressInfo_project_not_filled_cex :
    (insertAddressInfo
        (insertAddressInfo [] ⟨"", "10.0.0.5", "RESERVED", "sub1", ""⟩)
        ⟨"svc-b", "10.0.0.5", "", "", "vm1"⟩) =
      [("10.0.0.5", ⟨"", "10.0.0.5", "RESERVED", "sub1", "vm1"⟩)] ∧
    (⟨"", "10.0.0.5", "RESERVED", "sub1", ""⟩ : AddressInfo).Project = "" ∧
    (⟨"svc-b", "10.0.0.5", "", "", "vm1"⟩ : AddressInfo).Project ≠ "" := by
  refine ⟨?_, rfl, by decide⟩
  decide

/-- C1 (amended).  First writer wins for two candidates with the same IP
inserted in order: the merged record keeps every non-empty `Status`,
`Subnet`, `User` of the first candidate and fills only the empty ones from
the second; `Project` and `IP` always stay the first candidate's, even
when `Project` is empty. -/
theorem insertAddressInfo_first_writer_wins (c1 c2 : AddressInfo)
    (h : c2.IP = c1.IP) :
    insertAddressInfo (insertAddressInfo [] c1) c2 =
      [(c1.IP,
        { Project := c1.Project
          IP := c1.IP
          Status := if c1.Status = "" then c2.Status else c1.Status
          Subnet := if c1.Subnet = "" then c2.Subnet else c1.Subnet
          User := if c1.User = "" then c2.User else c1.User })] := by
  simp [insertAddressInfo, mergeAddressInfo, h]

/-- C1 witness: the amended first-writer-wins theorem at a concrete pair of
candidates. -/
theorem insertAddressInfo_first_writer_wins_witness :
    insertAddressInfo
        (insertAddressInfo [] ⟨"svc-a", "10.0.0.7", "RESERVED", "", ""⟩)
        ⟨"svc-b", "10.0.0.7", "IN_USE", "sub2", "vm2"⟩ =
      [("10.0.0.7", ⟨"svc-a", "10.0.0.7", "RESERVED", "sub2", "vm2"⟩)] := by
  rw [insertAddressInfo_first_writer_wins
    ⟨"svc-a", "10.0.0.7", "RESERVED", "", ""⟩
    ⟨"svc-b", "10.0.0.7", "IN_USE", "sub2", "vm2"⟩ rfl]
  decide

/-- C9.  Inserting a candidate that carries only an IP (all other fields
empty) for an already-present, fully-populated entry leaves the map
unchanged: every `if existingInfo.f = ""` guard either keeps the existing
value or copies the candidate's empty string over an empty field. -/
theorem insert_empty_candidate_noop (m : AddressInfoMap)
    (existingInfo cand : AddressInfo)
    (hlookup : m.lookup cand.IP = some existingInfo)
    (hp : existingInfo.Project ≠ "") (hst : existingInfo.Status ≠ "")
    (hsub : existingInfo.Subnet ≠ "") (hu : existingInfo.User ≠ "")
    (hcp : cand.Project = "") (hcst : cand.Status = "")
    (hcsub : cand.Subnet = "") (hcu : cand.User = "") :
    insertAddressInfo m cand = m := by
  induction m with
  | nil => simp [List.lookup] at hlookup
  | cons e rest ih =>
    obtain ⟨k, v⟩ := e
    by_cases hk : k = cand.IP
    · subst hk
      have hv : mergeAddressInfo v cand = v := by
        simp only [mergeAddressInfo, hcst, hcsub, hcu]
        cases v with
        | mk p ip st sub u =>
          simp only [AddressInfo.mk.injEq, true_and]
          refine ⟨?_, ?_, ?_⟩ <;> split <;> simp_all
      simp [insertAddressInfo, hv]
    · have hb : (cand.IP == k) = false := by
        simp only [beq_eq_false_iff_ne, ne_eq]
        exact fun h2 => hk h2.symm
      simp only [List.lookup, hb] at hlookup
      simp only [insertAddressInfo, if_neg hk]
      rw [ih hlookup]

/-- C9 witness: the no-op insertion theorem at a concrete one-entry map and
an IP-only candidate. -/
theorem insert_empty_candidate_noop_witness :
    insertAddressInfo [("10.0.0.9", ⟨"svc-a", "10.0.0.9", "IN_USE", "sub1", "vm9"⟩)]
        ⟨"", "10.0.0.9", "", "", ""⟩ =
      [("10.0.0.9", ⟨"svc-a", "10.0.0.9", "IN_USE", "sub1", "vm9"⟩)] :=
  insert_empty_candidate_noop _ ⟨"svc-a", "10.0.0.9", "IN_USE", "sub1", "vm9"⟩ _
    (by decide) (by decide) (by decide) (by decide) (by decide)
    rfl rfl rfl rfl

/-- Monadic map over `Option`: collects `f` of every element, `none` as
soon as one application is `none`.  Used to thread the possible
index-out-of-range panics of `flatten` through the model. -/
def mapOption {α β : Type} (f : α → Option β) : List α → Option (List β)
  | [] => some []
  | x :: xs => do
    let y ← f x
    let ys ← mapOption f xs
    some (y :: ys)

/-- Candidate `AddressInfo` built from one `compute.Address` (main.go lines
177-190).  Go leaves `user` as the zero value `""` when `address.Users` is
nil and otherwise indexes `address.Users[0]`, which panics (`none`) on a
present-but-empty slice. -/
def addrCandidate (proj : String) (address : Address) : Option AddressInfo := do
  let user ← match address.Users with
    | none => some ""
    | some users => users.head?.map getName
  some { Project := proj
         IP := address.Address
         Status := address.Status
         Subnet := getName address.Subnetwork
         User := user }

/-- Candidate `AddressInfo` built from one `compute.Instance` (main.go
lines 200-206).  Go unconditionally indexes `instance.NetworkInterfaces[0]`,
which panics (`none`) on an empty slice; `Status` is left at its zero
value. -/
def instCandidate (proj : String) (inst : Instance) : Option AddressInfo := do
  let ni ← inst.NetworkInterfaces.head?
  some { Project := proj
         IP := ni.NetworkIP
         Status := ""
         Subnet := getName ni.Subnetwork
         User := inst.Name }

/-- Address-derived candidates of one snapshot, in iteration order: every
scoped list with a non-nil `Addresses` slice contributes its addresses
(main.go lines 175-193). -/
def addressCandidates (proj : String) (al : AddressAggregatedList) :
    Option (List AddressInfo) :=
  mapOption (addrCandidate proj) (al.Items.map fun sl => sl.Addresses.getD []).flatten

/-- Instance-derived candidates of one snapshot, in iteration order: every
scoped list with a non-nil `Instances` slice contributes its instances
(main.go lines 198-209). -/
def instanceCandidates (proj : String) (il : InstanceAggregatedList) :
    Option (List AddressInfo) :=
  mapOption (instCandidate proj) (il.Items.map fun sl => sl.Instances.getD []).flatten

/-- All candidates one snapshot feeds to `insertAddressInfo`, address
records first, then instance records (main.go lines 171-211); a nil
aggregated list only logs and contributes nothing. -/
def snapshotCandidates (p : projectResources) : Option (List AddressInfo) := do
  let fromAddresses ← match p.AddressList with
    | none => some []
    | some al => addressCandidates p.Project al
  let fromInstances ← match p.InstanceList with
    | none => some []
    | some il => instanceCandidates p.Project il
  some (fromAddresses ++ fromInstances)

/-- Folding one snapshot's candidates into the IP-keyed map. -/
def processSnapshot (m : AddressInfoMap) (p : projectResources) :
    Option AddressInfoMap :=
  (snapshotCandidates p).map fun cs => cs.foldl insertAddressInfo m

/-- The function `flatten` (main.go lines 169-213): fold every snapshot's
candidates into one IP-keyed map; `none` models the panic on an
out-of-range index. -/
def flatten (projectResourceList : List projectResources) : Option AddressInfoMap :=
  projectResourceList.foldlM processSnapshot []

/-- The function `getResources` (main.go lines 76-97): it always returns a
`projectResources` value; an error from either aggregated-list fetch is
only logged and leaves the corresponding field nil.  The two network
fetches are parameters of the model. -/
def getResources (project : String)
    (addrFetch : Except String AddressAggregatedList)
    (instFetch : Except String InstanceAggregatedList) : projectResources :=
  { Project := project
    AddressList := addrFetch.toOption
    InstanceList := instFetch.toOption }

/-- The function `getAllResources` (main.go lines 100-135): a failure of
`getServiceProjects` hits `log.Fatal` (modelled `Except.error`); otherwise
every listed project is fetched and every fetch yields a snapshot.  The
completion order of the goroutines is nondeterministic; the model keeps
list order, which no downstream claim depends on. -/
def getAllResources (serviceProjectsRes : Except String (List String))
    (fetch : String → projectResources) : Except String (List projectResources) :=
  match serviceProjectsRes with
  | .error e => .error e
  | .ok projs => .ok (projs.map fetch)

/-- C3.  The end-to-end scenario of the spec: svc-a holds one reserved
address 10.0.0.5 (status RESERVED, subnet sub1, no user), svc-b one
instance vm1 at 10.0.0.5 in sub1; the merged output is exactly the single
record (svc-a, 10.0.0.5, RESERVED, sub1, vm1). -/
theorem flatten_end_to_end_scenario :
    flatten
        [⟨"svc-a",
          some ⟨[⟨some [⟨"10.0.0.5", "RESERVED",
            "projects/h/regions/r/subnetworks/sub1", none⟩]⟩]⟩,
          none⟩,
         ⟨"svc-b", none,
          some ⟨[⟨some [⟨"vm1",
            [⟨"10.0.0.5", "projects/h/regions/r/subnetworks/sub1"⟩]⟩]⟩]⟩⟩] =
      some [("10.0.0.5", ⟨"svc-a", "10.0.0.5", "RESERVED", "sub1", "vm1"⟩)] := by
  decide

/-- Keys of the IP-keyed map. -/
def keysOf (m : AddressInfoMap) : List String := m.map Prod.fst

/-- Merging never changes the IP of the existing entry. -/
theorem mergeAddressInfo_IP (v a : AddressInfo) :
    (mergeAddressInfo v a).IP = v.IP := rfl

/-- Inserting a candidate whose IP is already a key leaves the key list
unchanged. -/
theorem keysOf_insert_mem (m : AddressInfoMap) (a : AddressInfo)
    (h : a.IP ∈ keysOf m) : keysOf (insertAddressInfo m a) = keysOf m := by
  induction m with
  | nil => simp [keysOf] at h
  | cons e rest ih =>
    obtain ⟨k, v⟩ := e
    by_cases hk : k = a.IP
    · subst hk
      simp [insertAddressInfo, keysOf]
    · simp only [keysOf, List.map_cons, List.mem_cons] at h
      rcases h with h | h
      · exact absurd h.symm hk
      · simp only [insertAddressInfo, if_neg hk, keysOf, List.map_cons,
          List.cons.injEq, true_and]
        exact ih h

/-- Inserting a candidate with a fresh IP appends exactly that IP to the
key list. -/
theorem keysOf_insert_not_mem (m : AddressInfoMap) (a : AddressInfo)
    (h : a.IP ∉ keysOf m) :
    keysOf (insertAddressInfo m a) = keysOf m ++ [a.IP] := by
  induction m with
  | nil => simp [insertAddressInfo, keysOf]
  | cons e rest ih =>
    obtain ⟨k, v⟩ := e
    simp only [keysOf, List.map_cons, List.mem_cons] at h
    push_neg at h
    have hne : ¬ k = a.IP := fun hk => h.1 hk.symm
    simp only [insertAddressInfo, if_neg hne, keysOf, List.map_cons,
      List.cons_append, List.cons.injEq, true_and]
    exact ih h.2

/-- Well-formedness of the IP-keyed map: keys are pairwise distinct and
every stored record's `IP` field is its key. -/
def WFMap (m : AddressInfoMap) : Prop :=
  (keysOf m).Nodup ∧ ∀ e ∈ m, (Prod.snd e).IP = Prod.fst e

/-- An insertion preserves the key coherence of the stored records. -/
theorem coherent_insert (a : AddressInfo) :
    ∀ m : AddressInfoMap, (∀ e ∈ m, (Prod.snd e).IP = Prod.fst e) →
      ∀ e ∈ insertAddressInfo m a, (Prod.snd e).IP = Prod.fst e := by
  intro m
  induction m with
  | nil =>
    intro _ e he
    simp only [insertAddressInfo, List.mem_singleton] at he
    subst he
    rfl
  | cons kv rest ih =>
    obtain ⟨k, v⟩ := kv
    intro h e he
    by_cases hk : k = a.IP
    · rw [insertAddressInfo, if_pos hk] at he
      rcases List.mem_cons.mp he with he | he
      · subst he
        simpa [mergeAddressInfo_IP] using h (k, v) (by simp)
      · exact h e (List.mem_cons_of_mem _ he)
    · rw [insertAddressInfo, if_neg hk] at he
      rcases List.mem_cons.mp he with he | he
      · subst he
        exact h (k, v) (by simp)
      · exact ih (fun e' he' => h e' (List.mem_cons_of_mem _ he')) e he

/-- An insertion preserves well-formedness of the IP-keyed map. -/
theorem WFMap_insert (m : AddressInfoMap) (a : AddressInfo) (h : WFMap m) :
    WFMap (insertAddressInfo m a) := by
  obtain ⟨h1, h2⟩ := h
  refine ⟨?_, coherent_insert a m h2⟩
  by_cases hmem : a.IP ∈ keysOf m
  · rw [keysOf_insert_mem m a hmem]
    exact h1
  · rw [keysOf_insert_not_mem m a hmem]
    simp [List.nodup_append, h1, hmem]

/-- Folding any candidate list preserves well-formedness. -/
theorem WFMap_foldl (cs : List AddressInfo) (m : AddressInfoMap)
    (h : WFMap m) : WFMap (cs.foldl insertAddressInfo m) := by
  induction cs generalizing m with
  | nil => exact h
  | cons c cs ih => exact ih _ (WFMap_insert m c h)

/-- Every successful run of the snapshot fold preserves well-formedness. -/
theorem WFMap_foldlM (ps : List projectResources) (m₀ : AddressInfoMap)
    (h₀ : WFMap m₀) (m : AddressInfoMap)
    (h : List.foldlM processSnapshot m₀ ps = some m) : WFMap m := by
  induction ps generalizing m₀ with
  | nil =>
    simp only [List.foldlM_nil, pure, Option.some.injEq] at h
    subst h
    exact h₀
  | cons p ps ih =>
    simp only [List.foldlM_cons] at h
    cases hp : processSnapshot m₀ p with
    | none => simp [hp] at h
    | some m₁ =>
      rw [hp] at h
      simp only [Option.bind_eq_bind, Option.some_bind] at h
      refine ih m₁ ?_ h
      unfold processSnapshot at hp
      cases hcs : snapshotCandidates p with
      | none => simp [hcs] at hp
      | some cs =>
        rw [hcs] at hp
        simp only [Option.map_some', Option.some.injEq] at hp
        subst hp
        exact WFMap_foldl cs m₀ h₀

/-- C2.  Uniqueness invariant: whatever list of snapshots is flattened, no
two records of the merged output share an IP (the map is keyed by IP,
keys stay pairwise distinct, and a stored record's `IP` field always
equals its key). -/
theorem flatten_ips_nodup (ps : List projectResources) (m : AddressInfoMap)
    (h : flatten ps = some m) :
    (m.map fun e => (Prod.snd e).IP).Nodup := by
  obtain ⟨h1, h2⟩ := WFMap_foldlM ps [] ⟨List.nodup_nil, by simp⟩ m h
  have hmap : (m.map fun e => (Prod.snd e).IP) = keysOf m :=
    List.map_congr_left h2
  rw [hmap]
  exact h1

/-- C2 witness: the uniqueness theorem on a concrete run in which the same
IP is reported by two projects. -/
theorem flatten_ips_nodup_witness :
    ([("10.0.0.1", (⟨"p1", "10.0.0.1", "RESERVED", "sub1", "vm3"⟩ : AddressInfo)),
      ("10.0.0.2", (⟨"p2", "10.0.0.2", "RESERVED", "sub2", ""⟩ : AddressInfo))].map
        fun e => (Prod.snd e).IP).Nodup :=
  flatten_ips_nodup
    [⟨"p1", some ⟨[⟨some [⟨"10.0.0.1", "RESERVED", "n/sub1", none⟩]⟩]⟩, none⟩,
     ⟨"p2", some ⟨[⟨some [⟨"10.0.0.1", "IN_USE", "n/sub1", some ["i/vm3"]⟩,
       ⟨"10.0.0.2", "RESERVED", "n/sub2", none⟩]⟩]⟩, none⟩]
    _ (by decide)

/-- Flattening one more snapshot after a successful run folds exactly that
snapshot's candidates into the accumulated map. -/
theorem flatten_append_singleton (ps : List projectResources)
    (p : projectResources) (m : AddressInfoMap) (h : flatten ps = some m) :
    flatten (ps ++ [p]) = processSnapshot m p := by
  unfold flatten at h ⊢
  rw [List.foldlM_append, h]
  simp only [Option.bind_eq_bind, Option.some_bind, List.foldlM_cons,
    List.foldlM_nil]
  cases processSnapshot m p <;> simp

/-- C5.  Partial-failure isolation: `getResources` always returns a
snapshot (its type has no error case); when the instance fetch fails and
the address fetch succeeds, the returned snapshot carries the address
list and a nil instance list, and flattening it still contributes exactly
the snapshot's address-derived records to the merged output. -/
theorem flatten_keeps_address_records_on_instance_failure
    (proj : String) (al : AddressAggregatedList) (e : String)
    (ps : List projectResources) (m : AddressInfoMap)
    (h : flatten ps = some m) :
    getResources proj (Except.ok al) (Except.error e) = ⟨proj, some al, none⟩ ∧
    flatten (ps ++ [getResources proj (Except.ok al) (Except.error e)]) =
      (addressCandidates proj al).map fun cs => cs.foldl insertAddressInfo m := by
  refine ⟨rfl, ?_⟩
  rw [flatten_append_singleton ps _ m h]
  show ((snapshotCandidates ⟨proj, some al, none⟩).map
    fun cs => cs.foldl insertAddressInfo m) = _
  unfold snapshotCandidates
  cases hac : addressCandidates proj al <;> simp [hac]

/-- C5 witness: the partial-failure theorem at one concrete project whose
instance fetch failed. -/
theorem flatten_keeps_address_records_on_instance_failure_witness :
    getResources "svc-c"
        (Except.ok ⟨[⟨some [⟨"10.0.0.3", "RESERVED", "n/sub3", none⟩]⟩]⟩)
        (Except.error "boom") =
      ⟨"svc-c", some ⟨[⟨some [⟨"10.0.0.3", "RESERVED", "n/sub3", none⟩]⟩]⟩, none⟩ ∧
    flatten ([] ++ [getResources "svc-c"
        (Except.ok ⟨[⟨some [⟨"10.0.0.3", "RESERVED", "n/sub3", none⟩]⟩]⟩)
        (Except.error "boom")]) =
      (addressCandidates "svc-c"
          ⟨[⟨some [⟨"10.0.0.3", "RESERVED", "n/sub3", none⟩]⟩]⟩).map
        fun cs => cs.foldl insertAddressInfo [] :=
  flatten_keeps_address_records_on_instance_failure "svc-c"
    ⟨[⟨some [⟨"10.0.0.3", "RESERVED", "n/sub3", none⟩]⟩]⟩ "boom" [] [] rfl

/-- Mapping a fallible function succeeds when it succeeds on every
element. -/
theorem mapOption_isSome {α β : Type} (f : α → Option β) :
    ∀ xs : List α, (∀ x ∈ xs, (f x).isSome) → (mapOption f xs).isSome := by
  intro xs
  induction xs with
  | nil => intro _; simp [mapOption]
  | cons x xs ih =>
    intro h
    have hx := h x (by simp)
    have hxs := ih fun x' hx' => h x' (List.mem_cons_of_mem _ hx')
    cases hfx : f x with
    | none => rw [hfx] at hx; simp at hx
    | some y =>
      cases hrest : mapOption f xs with
      | none => rw [hrest] at hxs; simp at hxs
      | some ys => simp [mapOption, hfx, hrest]

/-- Precondition under which `flatten` never indexes out of bounds: every
present `Users` slice is non-empty and every instance has at least one
network interface. -/
def SafeSnapshot (p : projectResources) : Prop :=
  (∀ sl ∈ (p.AddressList.map AddressAggregatedList.Items).getD [],
    ∀ a ∈ sl.Addresses.getD [], a.Users ≠ some []) ∧
  (∀ sl ∈ (p.InstanceList.map InstanceAggregatedList.Items).getD [],
    ∀ i ∈ sl.Instances.getD [], i.NetworkInterfaces ≠ [])

/-- An address whose present `Users` slice is non-empty yields a
candidate. -/
theorem addrCandidate_isSome (proj : String) (a : Address)
    (h : a.Users ≠ some []) : (addrCandidate proj a).isSome := by
  unfold addrCandidate
  cases hu : a.Users with
  | none => simp
  | some users =>
    cases users with
    | nil => exact absurd hu h
    | cons u us => simp

/-- An instance with at least one network interface yields a candidate. -/
theorem instCandidate_isSome (proj : String) (i : Instance)
    (h : i.NetworkInterfaces ≠ []) : (instCandidate proj i).isSome := by
  unfold instCandidate
  cases hni : i.NetworkInterfaces with
  | nil => exact absurd hni h
  | cons ni nis => simp

/-- SafeSnapshot only quantifies over list members, so it is decidable. -/
instance (p : projectResources) : Decidable (SafeSnapshot p) := by
  unfold SafeSnapshot
  infer_instance

/-- An aggregated address list whose present `Users` slices are all
non-empty yields its candidate list. -/
theorem addressCandidates_isSome (proj : String) (al : AddressAggregatedList)
    (h : ∀ sl ∈ al.Items, ∀ a ∈ sl.Addresses.getD [], a.Users ≠ some []) :
    (addressCandidates proj al).isSome := by
  refine mapOption_isSome _ _ fun a hmem => ?_
  rw [List.mem_flatten] at hmem
  obtain ⟨l, hl, hal⟩ := hmem
  rw [List.mem_map] at hl
  obtain ⟨sl, hsl, rfl⟩ := hl
  exact addrCandidate_isSome _ a (h sl hsl a hal)

/-- An aggregated instance list whose instances all have a network
interface yields its candidate list. -/
theorem instanceCandidates_isSome (proj : String) (il : InstanceAggregatedList)
    (h : ∀ sl ∈ il.Items, ∀ i ∈ sl.Instances.getD [], i.NetworkInterfaces ≠ []) :
    (instanceCandidates proj il).isSome := by
  refine mapOption_isSome _ _ fun i hmem => ?_
  rw [List.mem_flatten] at hmem
  obtain ⟨l, hl, hil⟩ := hmem
  rw [List.mem_map] at hl
  obtain ⟨sl, hsl, rfl⟩ := hl
  exact instCandidate_isSome _ i (h sl hsl i hil)

/-- A safe snapshot's candidate list is always produced. -/
theorem snapshotCandidates_isSome (p : projectResources)
    (h : SafeSnapshot p) : (snapshotCandidates p).isSome := by
  obtain ⟨proj, oal, oil⟩ := p
  obtain ⟨ha, hi⟩ := h
  cases oal with
  | none =>
    cases oil with
    | none => simp [snapshotCandidates]
    | some il =>
      obtain ⟨is, his⟩ :=
        Option.isSome_iff_exists.mp
          (instanceCandidates_isSome proj il (by simpa using hi))
      simp [snapshotCandidates, his]
  | some al =>
    obtain ⟨as, has⟩ :=
      Option.isSome_iff_exists.mp
        (addressCandidates_isSome proj al (by simpa using ha))
    cases oil with
    | none => simp [snapshotCandidates, has]
    | some il =>
      obtain ⟨is, his⟩ :=
        Option.isSome_iff_exists.mp
          (instanceCandidates_isSome proj il (by simpa using hi))
      simp [snapshotCandidates, has, his]

/-- C10.  The merge stage is not total: a well-typed snapshot whose
instance has no network interface makes `flatten` hit the out-of-bounds
index (`none`); under the precondition that every instance has at least
one network interface and every present users slice is non-empty, the
indexing never goes out of bounds and `flatten` always produces a map. -/
theorem flatten_panics_and_safe :
    flatten [⟨"p0", none, some ⟨[⟨some [⟨"vm0", []⟩]⟩]⟩⟩] = none ∧
    ∀ ps : List projectResources,
      (∀ p ∈ ps, SafeSnapshot p) → (flatten ps).isSome := by
  constructor
  · decide
  · intro ps h
    unfold flatten
    suffices hgen : ∀ m₀ : AddressInfoMap,
        (List.foldlM processSnapshot m₀ ps).isSome from hgen []
    induction ps with
    | nil => intro m₀; simp
    | cons p ps ih =>
      intro m₀
      have hp := snapshotCandidates_isSome p (h p (by simp))
      cases hcs : snapshotCandidates p with
      | none => rw [hcs] at hp; simp at hp
      | some cs =>
        have := ih fun p' hp' => h p' (List.mem_cons_of_mem _ hp')
        simp only [List.foldlM_cons, processSnapshot, hcs, Option.map_some',
          Option.bind_eq_bind, Option.some_bind]
        exact this _

/-- C10 witness: the safety half of the theorem applied to a concrete safe
snapshot list. -/
theorem flatten_panics_and_safe_witness :
    (flatten [⟨"p1",
        some ⟨[⟨some [⟨"10.0.0.8", "IN_USE", "n/sub8", some ["x/u8"]⟩]⟩]⟩,
        some ⟨[⟨some [⟨"vm8", [⟨"10.0.0.8", "n/sub8"⟩]⟩]⟩]⟩⟩]).isSome :=
  flatten_panics_and_safe.2 _ (by decide)

/-- Model of `bytes.Compare a b < 0`: strict lexicographic order on byte
slices, a shorter strict prefix ordered first; Go's nil slice compares as
the empty slice. -/
def bytesLt : List Nat → List Nat → Bool
  | [], [] => false
  | [], _ :: _ => true
  | _ :: _, [] => false
  | a :: as, b :: bs =>
    if a < b then true else if b < a then false else bytesLt as bs

/-- Strictness: two slices are never each less than the other. -/
theorem bytesLt_asymm : ∀ a b : List Nat,
    bytesLt a b = true → bytesLt b a = false := by
  intro a
  induction a with
  | nil =>
    intro b h
    cases b with
    | nil => simp [bytesLt] at h
    | cons y ys => simp [bytesLt]
  | cons x xs ih =>
    intro b h
    cases b with
    | nil => simp [bytesLt] at h
    | cons y ys =>
      simp only [bytesLt] at h ⊢
      rcases Nat.lt_trichotomy x y with hxy | hxy | hxy
      · simp [hxy, Nat.lt_asymm hxy]
      · subst hxy
        simp only [Nat.lt_irrefl, if_false] at h ⊢
        exact ih ys h
      · simp [hxy, Nat.lt_asymm hxy] at h

/-- Comparison splitting: anything below `a` is below `b` or puts `b`
below `a`. -/
theorem bytesLt_or : ∀ c a b : List Nat,
    bytesLt c a = true → bytesLt c b = true ∨ bytesLt b a = true := by
  intro c
  induction c with
  | nil =>
    intro a b h
    cases a with
    | nil => simp [bytesLt] at h
    | cons x xs =>
      cases b with
      | nil => right; simp [bytesLt]
      | cons y ys => left; simp [bytesLt]
  | cons z zs ih =>
    intro a b h
    cases a with
    | nil => simp [bytesLt] at h
    | cons x xs =>
      cases b with
      | nil => right; simp [bytesLt]
      | cons y ys =>
        simp only [bytesLt] at h
        rcases Nat.lt_trichotomy z y with hzy | hzy | hzy
        · left
          simp [bytesLt, hzy]
        · subst hzy
          rcases Nat.lt_trichotomy z x with hzx | hzx | hzx
          · right
            simp [bytesLt, hzx]
          · subst hzx
            simp only [Nat.lt_irrefl, if_false] at h
            rcases ih xs ys h with h' | h'
            · left
              simp [bytesLt, Nat.lt_irrefl, h']
            · right
              simp [bytesLt, Nat.lt_irrefl, h']
          · simp [hzx, Nat.lt_asymm hzx] at h
        · have hzx : z ≤ x := by
            by_contra hc
            push_neg at hc
            simp [hc, Nat.lt_asymm hc] at h
          right
          simp [bytesLt, lt_of_lt_of_le hzy hzx]

/-- Numeric value of one decimal digit. -/
def digitVal (c : Char) : Option Nat :=
  if '0' ≤ c ∧ c ≤ '9' then some (c.toNat - '0'.toNat) else none

/-- One dotted-decimal field: at least one digit, all digits, value at
most 255 (mirrors Go's `dtoi` plus the `n > 0xFF` check; both fail on the
same fields). -/
def parseByte (field : List Char) : Option Nat :=
  if field = [] then none
  else
    field.foldlM
      (fun acc c =>
        (digitVal c).bind fun d =>
          if acc * 10 + d ≤ 255 then some (acc * 10 + d) else none)
      0

/-- Dotted-decimal IPv4 parse of an entire string: exactly four valid
fields, each one or more digits with value at most 255 (Go's `parseIPv4`
loop, which demands a full parse and fails on any leftover input). -/
def parseIPv4Bytes (s : List Char) : Option (List Nat) :=
  match mapOption parseByte (splitOnChar '.' s) with
  | some [a, b, c, d] => some [a, b, c, d]
  | _ => none

/-- Result of `net.ParseIP` on a dotted-decimal string: the 16-byte form
(12-byte v4-in-v6 marker followed by the four octets), `[]` standing for
Go's nil on failure. -/
def parseIPv4 (s : String) : List Nat :=
  match parseIPv4Bytes s.data with
  | some bs => [0, 0, 0, 0, 0, 0, 0, 0, 0, 0, 255, 255] ++ bs
  | none => []

/-- Numeric value of one hexadecimal digit (the digit cases of Go's
`xtoi`). -/
def hexDigitVal (c : Char) : Option Nat :=
  if '0' ≤ c ∧ c ≤ '9' then some (c.toNat - '0'.toNat)
  else if 'a' ≤ c ∧ c ≤ 'f' then some (c.toNat - 'a'.toNat + 10)
  else if 'A' ≤ c ∧ c ≤ 'F' then some (c.toNat - 'A'.toNat + 10)
  else none

/-- Model of Go's `xtoi`: consume leading hex digits and return their
value and the rest.  Go fails as soon as the accumulator reaches
`0xFFFFFF`; since the accumulator grows monotonically this is exactly the
condition that the full value stays below `0xFFFFFF`, with at least one
digit. -/
def xtoi (s : List Char) : Option (Nat × List Char) :=
  let ds := s.takeWhile fun c => (hexDigitVal c).isSome
  if ds.isEmpty then none
  else
    let n := ds.foldl (fun n c => n * 16 + (hexDigitVal c).getD 0) 0
    if n < 0xFFFFFF then some (n, s.drop ds.length) else none

/-- Parsing loop of Go's `parseIPv6`: one iteration per 16-bit group
(`fuel` counts the groups still allowed, so byte index `i` is
`16 - 2 * fuel`); `acc` holds the bytes stored so far, `ell` the byte
position of the `::` ellipsis if one was seen.  Returns the bytes, the
ellipsis and the unconsumed input, or `none` where Go returns nil inside
the loop. -/
def parseIPv6Aux : Nat → List Char → List Nat → Option Nat →
    Option (List Nat × Option Nat × List Char)
  | 0, s, acc, ell => some (acc, ell, s)
  | fuel + 1, s, acc, ell =>
    match xtoi s with
    | none => none
    | some (n, rest) =>
      if n > 0xFFFF then none
      else
        match rest with
        | '.' :: _ =>
          if ell.isNone ∧ acc.length ≠ 12 then none
          else if acc.length + 4 > 16 then none
          else
            match parseIPv4Bytes s with
            | none => none
            | some bs => some (acc ++ bs, ell, [])
        | [] => some (acc ++ [n / 256, n % 256], ell, [])
        | ':' :: rest2 =>
          match rest2 with
          | [] => none
          | ':' :: rest3 =>
            if ell.isSome then none
            else
              match rest3 with
              | [] => some (acc ++ [n / 256, n % 256], some (acc.length + 2), [])
              | _ =>
                parseIPv6Aux fuel rest3 (acc ++ [n / 256, n % 256])
                  (some (acc.length + 2))
          | _ => parseIPv6Aux fuel rest2 (acc ++ [n / 256, n % 256]) ell
        | _ => none

/-- Finish of Go's `parseIPv6` after the loop: leftover input is a
failure; fewer than 16 bytes need an ellipsis, which is expanded with
zero bytes at its position; a full 16 bytes with an ellipsis is a
failure (`::` must stand for at least one zero group). -/
def parseIPv6Finish :
    Option (List Nat × Option Nat × List Char) → List Nat
  | none => []
  | some (acc, ell, srem) =>
    if srem.isEmpty then
      if acc.length < 16 then
        match ell with
        | none => []
        | some e =>
          acc.take e ++ List.replicate (16 - acc.length) 0 ++ acc.drop e
      else if ell.isSome then [] else acc
    else []

/-- Model of Go's `parseIPv6` (2018-era `net`): an optional leading `::`,
then hex groups separated by `:` with at most one `::` ellipsis and an
optional trailing dotted IPv4; `[]` stands for nil. -/
def parseIPv6 (s : List Char) : List Nat :=
  match s with
  | ':' :: ':' :: rest =>
    if rest.isEmpty then List.replicate 16 0
    else parseIPv6Finish (parseIPv6Aux 8 rest [] (some 0))
  | _ => parseIPv6Finish (parseIPv6Aux 8 s [] none)

/-- Model of `net.ParseIP` as used by `writeToFile` (main.go lines
246-247): the first separator character decides the family, `.` for
dotted-decimal IPv4 and `:` for IPv6; a string with neither is nil.
Both families yield the 16-byte form, so IPv4 and IPv6 compare exactly
as in Go. -/
def parseIP (s : String) : List Nat :=
  match s.data.find? fun c => c == '.' || c == ':' with
  | some c => if c = '.' then parseIPv4 s else parseIPv6 s.data
  | none => []

/-- Fidelity spot-checks of the IP parser: both families, the v4-mapped
form, ellipsis expansion, a full eight-group address, and failures. -/
theorem parseIP_examples :
    parseIP "10.0.0.9" = [0, 0, 0, 0, 0, 0, 0, 0, 0, 0, 255, 255, 10, 0, 0, 9] ∧
    parseIP "::1" = [0, 0, 0, 0, 0, 0, 0, 0, 0, 0, 0, 0, 0, 0, 0, 1] ∧
    parseIP "::" = List.replicate 16 0 ∧
    parseIP "::ffff:1.2.3.4" =
      [0, 0, 0, 0, 0, 0, 0, 0, 0, 0, 255, 255, 1, 2, 3, 4] ∧
    parseIP "2001:db8::1" =
      [32, 1, 13, 184, 0, 0, 0, 0, 0, 0, 0, 0, 0, 0, 0, 1] ∧
    parseIP "1:2:3:4:5:6:7:8" =
      [0, 1, 0, 2, 0, 3, 0, 4, 0, 5, 0, 6, 0, 7, 0, 8] ∧
    parseIP "not-an-ip" = [] ∧
    parseIP "1::2::3" = [] ∧
    parseIP "1:2:3" = [] := by
  decide

/-- The `less` closure passed to `sort.Slice` (main.go lines 245-249):
`bytes.Compare(net.ParseIP(i.IP), net.ParseIP(j.IP)) < 0`. -/
def ipLess (x y : AddressInfo) : Prop :=
  bytesLt (parseIP x.IP) (parseIP y.IP) = true

instance : DecidableRel ipLess :=
  fun x y =>
    inferInstanceAs (Decidable (bytesLt (parseIP x.IP) (parseIP y.IP) = true))

/-- The sortedness guarantee `sort.Slice` gives for `less`: no later
element is `less` than an earlier one. -/
def ipLe (x y : AddressInfo) : Prop := ¬ ipLess y x

instance : DecidableRel ipLe :=
  fun x y => inferInstanceAs (Decidable (¬ ipLess y x))

instance : IsTotal AddressInfo ipLe :=
  ⟨fun a b => by
    by_cases h : bytesLt (parseIP b.IP) (parseIP a.IP) = true
    · right
      intro hc
      have hc' : bytesLt (parseIP a.IP) (parseIP b.IP) = true := hc
      rw [bytesLt_asymm _ _ h] at hc'
      exact Bool.false_ne_true hc'
    · exact Or.inl h⟩

instance : IsTrans AddressInfo ipLe :=
  ⟨fun a b c hab hbc hlt =>
    (bytesLt_or (parseIP c.IP) (parseIP a.IP) (parseIP b.IP) hlt).elim
      (fun h' => hbc h') (fun h' => hab h')⟩

/-- The sorting step of `writeToFile` (main.go lines 245-249),
`sort.Slice` modelled as a comparison sort for the same `less`. -/
def sortByIP (addressInfoList : List AddressInfo) : List AddressInfo :=
  addressInfoList.insertionSort ipLe

/-- One table row in the fixed column order IP, project, status, user
(main.go lines 253-258). -/
def renderRow (a : AddressInfo) : List String :=
  [a.IP, a.Project, a.Status, a.User]

/-- The pure content of `writeToFile` (main.go lines 228-270): the sink
named after the subnet and the sorted, rendered rows. -/
def writeToFileRows (subnet : String) (addressInfoList : List AddressInfo) :
    String × List (List String) :=
  (subnet ++ ".md", (sortByIP addressInfoList).map renderRow)

/-- The function `writeToFile` (main.go lines 228-270) with its two
fallible sink operations (`os.Create`, `WriteString`) as parameters; a
failure of either hits `log.Fatal`, modelled as `Except.error`. -/
def writeToFile (createRes writeHeaderRes : Except String Unit)
    (subnet : String) (addressInfoList : List AddressInfo) :
    Except String (String × List (List String)) := do
  _ ← createRes
  _ ← writeHeaderRes
  pure (writeToFileRows subnet addressInfoList)

/-- C4.  The reporter renders rows sorted ascending by the binary value of
the parsed IP (no later row's parsed IP is `bytes.Compare`-below an
earlier one's), not by string order: on the IPs 10.0.0.10, 10.0.0.2,
10.0.0.9 it renders 10.0.0.2, 10.0.0.9, 10.0.0.10; IPv6 rows sort by
their 16-byte value the same way (for example ::2 before ::10 before the
v4-mapped ::ffff:1.2.3.4 before 2001:db8::1). -/
theorem writeToFile_sorts_by_numeric_ip :
    (∀ (subnet : String) (l : List AddressInfo),
      (writeToFileRows subnet l).2 = (sortByIP l).map renderRow ∧
      (sortByIP l).Perm l ∧ (sortByIP l).Pairwise ipLe) ∧
    sortByIP
        [⟨"p", "10.0.0.10", "", "sub", ""⟩,
         ⟨"p", "10.0.0.2", "", "sub", ""⟩,
         ⟨"p", "10.0.0.9", "", "sub", ""⟩] =
      [⟨"p", "10.0.0.2", "", "sub", ""⟩,
       ⟨"p", "10.0.0.9", "", "sub", ""⟩,
       ⟨"p", "10.0.0.10", "", "sub", ""⟩] ∧
    sortByIP
        [⟨"p", "2001:db8::1", "", "sub", ""⟩,
         ⟨"p", "::10", "", "sub", ""⟩,
         ⟨"p", "::ffff:1.2.3.4", "", "sub", ""⟩,
         ⟨"p", "::2", "", "sub", ""⟩] =
      [⟨"p", "::2", "", "sub", ""⟩,
       ⟨"p", "::10", "", "sub", ""⟩,
       ⟨"p", "::ffff:1.2.3.4", "", "sub", ""⟩,
       ⟨"p", "2001:db8::1", "", "sub", ""⟩] := by
  refine ⟨?_, by decide, by decide⟩
  intro subnet l
  exact ⟨rfl, List.perm_insertionSort ipLe l, List.sorted_insertionSort ipLe l⟩

/-- C6.  Fatal versus absorbed failures: an error enumerating service
projects makes `getAllResources` halt the run (main.go lines 105-108),
while a successful enumeration always yields one snapshot per project with
no error value, whatever the per-project fetches did (`getResources` is
total, even on double failure); a failed sink creation or header write in
`writeToFile` halts the run (main.go lines 232-242). -/
theorem fatal_and_absorbed_errors :
    (∀ (e : String) (fetch : String → projectResources),
      getAllResources (Except.error e) fetch = Except.error e) ∧
    (∀ (projs : List String) (fetch : String → projectResources),
      getAllResources (Except.ok projs) fetch = Except.ok (projs.map fetch)) ∧
    (∀ proj e1 e2 : String,
      getResources proj (Except.error e1) (Except.error e2) =
        ⟨proj, none, none⟩) ∧
    (∀ (e : String) (w : Except String Unit) (subnet : String)
        (l : List AddressInfo),
      writeToFile (Except.error e) w subnet l = Except.error e) ∧
    (∀ (e subnet : String) (l : List AddressInfo),
      writeToFile (Except.ok ()) (Except.error e) subnet l = Except.error e) :=
  ⟨fun _ _ => rfl, fun _ _ => rfl, fun _ _ _ => rfl,
   fun _ _ _ _ => rfl, fun _ _ _ => rfl⟩

/-- Appending one record to the Go map `addressInfoBySubnet` (main.go line
221): the first bucket keyed by the record's subnet grows by the record;
a missing key creates a singleton bucket. -/
def addToGroup : List (String × List AddressInfo) → AddressInfo →
    List (String × List AddressInfo)
  | [], a => [(a.Subnet, [a])]
  | (s, l) :: rest, a =>
    if s = a.Subnet then (s, l ++ [a]) :: rest
    else (s, l) :: addToGroup rest a

/-- The grouping loop of `extractFields` (main.go lines 219-222): re-key
the merged map by subnet. -/
def groupBySubnet (m : AddressInfoMap) : List (String × List AddressInfo) :=
  m.foldl (fun g e => addToGroup g (Prod.snd e)) []

/-- The function `extractFields` (main.go lines 216-224): flatten, then
group by subnet. -/
def extractFields (projectResourceList : List projectResources) :
    Option (List (String × List AddressInfo)) :=
  (flatten projectResourceList).map groupBySubnet

/-- The function `writeAll` (main.go lines 276-282): one file per
non-empty subnet; the empty-subnet group is skipped.  Shown with
successful sinks; the sink failures of `writeToFile` are modelled there. -/
def writeAll (addressesBySubnet : List (String × List AddressInfo)) :
    List (String × List (List String)) :=
  addressesBySubnet.filterMap fun e =>
    if Prod.fst e = "" then none
    else some (writeToFileRows (Prod.fst e) (Prod.snd e))

/-- Bucket coherence is preserved by one grouping step: every record sits
in the bucket named by its subnet. -/
theorem addToGroup_coherent (a : AddressInfo) :
    ∀ g, (∀ e ∈ g, ∀ r ∈ Prod.snd e, r.Subnet = Prod.fst e) →
      ∀ e ∈ addToGroup g a, ∀ r ∈ Prod.snd e, r.Subnet = Prod.fst e := by
  intro g
  induction g with
  | nil =>
    intro _ e he r hr
    simp only [addToGroup, List.mem_singleton] at he
    subst he
    simp only [List.mem_singleton] at hr
    subst hr
    rfl
  | cons sl rest ih =>
    obtain ⟨s, l⟩ := sl
    intro h e he r hr
    by_cases hs : s = a.Subnet
    · rw [addToGroup, if_pos hs] at he
      rcases List.mem_cons.mp he with he | he
      · subst he
        rcases List.mem_append.mp hr with hr | hr
        · exact h (s, l) (by simp) r hr
        · simp only [List.mem_singleton] at hr
          subst hr
          exact hs.symm
      · exact h e (List.mem_cons_of_mem _ he) r hr
    · rw [addToGroup, if_neg hs] at he
      rcases List.mem_cons.mp he with he | he
      · subst he
        exact h (s, l) (by simp) r hr
      · exact ih (fun e' he' => h e' (List.mem_cons_of_mem _ he')) e he r hr

/-- Bucket coherence of the grouping fold, for any coherent start. -/
theorem foldl_addToGroup_coherent (m : AddressInfoMap) :
    ∀ g, (∀ e ∈ g, ∀ r ∈ Prod.snd e, r.Subnet = Prod.fst e) →
      ∀ e ∈ m.foldl (fun g e => addToGroup g (Prod.snd e)) g,
        ∀ r ∈ Prod.snd e, r.Subnet = Prod.fst e := by
  induction m with
  | nil => intro g hg; simpa using hg
  | cons kv rest ih =>
    intro g hg
    simp only [List.foldl_cons]
    exact ih _ (addToGroup_coherent _ _ hg)

/-- Every record of a bucket of `groupBySubnet` is named by its subnet. -/
theorem groupBySubnet_coherent (m : AddressInfoMap) :
    ∀ e ∈ groupBySubnet m, ∀ r ∈ Prod.snd e, r.Subnet = Prod.fst e :=
  foldl_addToGroup_coherent m [] (by simp)

/-- The record just added is in the bucket looked up by its subnet. -/
theorem lookup_addToGroup_self (a : AddressInfo) :
    ∀ g, ∃ l, (addToGroup g a).lookup a.Subnet = some l ∧ a ∈ l := by
  intro g
  induction g with
  | nil => exact ⟨[a], by simp [addToGroup, List.lookup], by simp⟩
  | cons sl rest ih =>
    obtain ⟨s, l⟩ := sl
    by_cases hs : s = a.Subnet
    · subst hs
      exact ⟨l ++ [a], by simp [addToGroup, List.lookup], by simp⟩
    · have hb : (a.Subnet == s) = false := by
        simp only [beq_eq_false_iff_ne, ne_eq]
        exact fun h2 => hs h2.symm
      obtain ⟨l', hl', hal'⟩ := ih
      exact ⟨l', by simp [addToGroup, if_neg hs, List.lookup, hb, hl'], hal'⟩

/-- A grouping step only grows the bucket it targets: any bucket reachable
by lookup stays reachable with all its records. -/
theorem lookup_addToGroup_sub (a : AddressInfo) :
    ∀ g s l, g.lookup s = some l →
      ∃ l', (addToGroup g a).lookup s = some l' ∧ ∀ r ∈ l, r ∈ l' := by
  intro g
  induction g with
  | nil => intro s l h; simp [List.lookup] at h
  | cons sl rest ih =>
    obtain ⟨s', l'⟩ := sl
    intro s l h
    by_cases hss : s = s'
    · subst hss
      simp only [List.lookup, beq_self_eq_true] at h
      have hll : l' = l := by simpa using h
      by_cases hs : s = a.Subnet
      · rw [addToGroup, if_pos hs]
        exact ⟨l ++ [a], by simp [List.lookup, hll], fun r hr => by simp [hr]⟩
      · rw [addToGroup, if_neg hs]
        exact ⟨l, by simp [List.lookup, hll], fun r hr => hr⟩
    · have hb : (s == s') = false := by
        simp only [beq_eq_false_iff_ne, ne_eq]
        exact hss
      simp only [List.lookup, hb] at h
      by_cases hs : s' = a.Subnet
      · rw [addToGroup, if_pos hs]
        exact ⟨l, by simp [List.lookup, hb, h], fun r hr => hr⟩
      · rw [addToGroup, if_neg hs]
        obtain ⟨l₂, hl₂, hsub⟩ := ih s l h
        exact ⟨l₂, by simp [List.lookup, hb, hl₂], hsub⟩

/-- Every record of the merged map ends up, after grouping, in the bucket
looked up by its subnet. -/
theorem groupBySubnet_retains (m : AddressInfoMap) (r : AddressInfo)
    (hr : r ∈ m.map Prod.snd) :
    ∃ l, (groupBySubnet m).lookup r.Subnet = some l ∧ r ∈ l := by
  suffices hgen : ∀ (mm : AddressInfoMap) (g : List (String × List AddressInfo)),
      (r ∈ mm.map Prod.snd ∨ ∃ l, g.lookup r.Subnet = some l ∧ r ∈ l) →
      ∃ l, (mm.foldl (fun g e => addToGroup g (Prod.snd e)) g).lookup r.Subnet
          = some l ∧ r ∈ l by
    exact hgen m [] (Or.inl hr)
  intro mm
  induction mm with
  | nil =>
    intro g hg
    rcases hg with hg | hg
    · simp at hg
    · simpa using hg
  | cons kv rest ih =>
    intro g hg
    simp only [List.foldl_cons]
    rcases hg with hg | hg
    · simp only [List.map_cons, List.mem_cons] at hg
      rcases hg with hg | hg
      · subst hg
        exact ih _ (Or.inr (lookup_addToGroup_self _ g))
      · exact ih _ (Or.inl hg)
    · obtain ⟨l, hl, hrl⟩ := hg
      obtain ⟨l', hl', hsub⟩ := lookup_addToGroup_sub _ g _ l hl
      exact ih _ (Or.inr ⟨l', hl', hsub r hrl⟩)

/-- A successful lookup is a membership. -/
theorem lookup_mem :
    ∀ (g : List (String × List AddressInfo)) (s : String) (l : List AddressInfo),
      g.lookup s = some l → (s, l) ∈ g := by
  intro g
  induction g with
  | nil => intro s l h; simp [List.lookup] at h
  | cons e rest ih =>
    obtain ⟨s', l'⟩ := e
    intro s l h
    by_cases hss : s = s'
    · subst hss
      simp only [List.lookup, beq_self_eq_true] at h
      have hll : l' = l := by simpa using h
      rw [← hll]
      exact List.mem_cons_self _ _
    · have hb : (s == s') = false := by
        simp only [beq_eq_false_iff_ne, ne_eq]
        exact hss
      simp only [List.lookup, hb] at h
      exact List.mem_cons_of_mem _ (ih s l h)

/-- C7.  A record with an empty subnet is retained by the grouping under
the empty key, and every file the reporting loop emits comes from a
non-empty-subnet group that cannot contain the record, so the record is
never written to any report file. -/
theorem empty_subnet_never_written (m : AddressInfoMap) (r : AddressInfo)
    (hmem : r ∈ m.map Prod.snd) (hsub : r.Subnet = "") :
    (∃ l, (groupBySubnet m).lookup "" = some l ∧ r ∈ l) ∧
    ∀ e ∈ writeAll (groupBySubnet m),
      ∃ gr, gr ∈ groupBySubnet m ∧ Prod.fst gr ≠ "" ∧
        e = writeToFileRows (Prod.fst gr) (Prod.snd gr) ∧ r ∉ Prod.snd gr := by
  constructor
  · have h := groupBySubnet_retains m r hmem
    rwa [hsub] at h
  · intro e he
    rw [writeAll, List.mem_filterMap] at he
    obtain ⟨gr, hgr, hgr2⟩ := he
    by_cases hg : Prod.fst gr = ""
    · rw [if_pos hg] at hgr2
      exact absurd hgr2 (by simp)
    · rw [if_neg hg] at hgr2
      refine ⟨gr, hgr, hg, (Option.some_inj.mp hgr2).symm, fun hrg => ?_⟩
      exact hg ((groupBySubnet_coherent m gr hgr r hrg).symm.trans hsub)

/-- C7 witness: the empty-subnet record of a concrete merged map is
grouped under the empty key and excluded from every written file. -/
theorem empty_subnet_never_written_witness :
    (∃ l, (groupBySubnet
        [("10.0.0.4", ⟨"p4", "10.0.0.4", "RESERVED", "sub4", ""⟩),
         ("10.0.0.6", ⟨"p6", "10.0.0.6", "RESERVED", "", ""⟩)]).lookup ""
          = some l ∧ (⟨"p6", "10.0.0.6", "RESERVED", "", ""⟩ : AddressInfo) ∈ l) ∧
    ∀ e ∈ writeAll (groupBySubnet
        [("10.0.0.4", ⟨"p4", "10.0.0.4", "RESERVED", "sub4", ""⟩),
         ("10.0.0.6", ⟨"p6", "10.0.0.6", "RESERVED", "", ""⟩)]),
      ∃ gr, gr ∈ groupBySubnet
          [("10.0.0.4", ⟨"p4", "10.0.0.4", "RESERVED", "sub4", ""⟩),
           ("10.0.0.6", ⟨"p6", "10.0.0.6", "RESERVED", "", ""⟩)] ∧
        Prod.fst gr ≠ "" ∧
        e = writeToFileRows (Prod.fst gr) (Prod.snd gr) ∧
        (⟨"p6", "10.0.0.6", "RESERVED", "", ""⟩ : AddressInfo) ∉ Prod.snd gr :=
  empty_subnet_never_written _ _ (by decide) rfl

/-- Keys after one grouping step: unchanged for a known subnet, the new
subnet appended otherwise. -/
theorem keys_addToGroup (a : AddressInfo) :
    ∀ g, (addToGroup g a).map Prod.fst =
      if a.Subnet ∈ g.map Prod.fst then g.map Prod.fst
      else g.map Prod.fst ++ [a.Subnet] := by
  intro g
  induction g with
  | nil => simp [addToGroup]
  | cons sl rest ih =>
    obtain ⟨s, l⟩ := sl
    by_cases hs : s = a.Subnet
    · subst hs
      simp [addToGroup]
    · rw [addToGroup, if_neg hs]
      simp only [List.map_cons]
      rw [ih]
      by_cases hmem : a.Subnet ∈ rest.map Prod.fst
      · rw [if_pos hmem, if_pos (List.mem_cons_of_mem s hmem)]
      · have hm2 : a.Subnet ∉ s :: rest.map Prod.fst := by
          simp only [List.mem_cons, hmem, or_false]
          exact fun h => hs h.symm
        rw [if_neg hmem, if_neg hm2, List.cons_append]

/-- One grouping step keeps the bucket keys pairwise distinct. -/
theorem keys_nodup_addToGroup (a : AddressInfo)
    (g : List (String × List AddressInfo)) (h : (g.map Prod.fst).Nodup) :
    ((addToGroup g a).map Prod.fst).Nodup := by
  rw [keys_addToGroup]
  by_cases hmem : a.Subnet ∈ g.map Prod.fst
  · simpa [hmem] using h
  · simp [hmem, List.nodup_append, h]

/-- The grouping produces pairwise-distinct subnet keys. -/
theorem groupBySubnet_keys_nodup (m : AddressInfoMap) :
    ((groupBySubnet m).map Prod.fst).Nodup := by
  suffices hgen : ∀ (mm : AddressInfoMap) (g : List (String × List AddressInfo)),
      (g.map Prod.fst).Nodup →
      ((mm.foldl (fun g e => addToGroup g (Prod.snd e)) g).map Prod.fst).Nodup by
    exact hgen m [] (by simp)
  intro mm
  induction mm with
  | nil => intro g hg; simpa using hg
  | cons kv rest ih =>
    intro g hg
    simp only [List.foldl_cons]
    exact ih _ (keys_nodup_addToGroup _ _ hg)

/-- One grouping step adds the record to the reported union exactly when
its subnet is non-empty. -/
theorem flatten_filter_addToGroup (a : AddressInfo) :
    ∀ g : List (String × List AddressInfo),
      ((((addToGroup g a).filter fun e => Prod.fst e != "").map Prod.snd).flatten).Perm
        ((((g.filter fun e => Prod.fst e != "").map Prod.snd).flatten) ++
          if a.Subnet = "" then [] else [a]) := by
  intro g
  induction g with
  | nil =>
    by_cases hs : a.Subnet = ""
    · simp [addToGroup, hs]
    · simp [addToGroup, hs]
  | cons sl rest ih =>
    obtain ⟨s, l⟩ := sl
    by_cases hs : s = a.Subnet
    · subst hs
      rw [addToGroup, if_pos rfl]
      by_cases hse : a.Subnet = ""
      · have hp : ¬ ((a.Subnet != "") = true) := by simp [hse]
        simp only [List.filter_cons, if_neg hp, if_pos hse, List.append_nil]
        exact List.Perm.refl _
      · have hp : ((a.Subnet != "") = true) := by simp [hse]
        simp only [List.filter_cons, if_pos hp, if_neg hse, List.map_cons,
          List.flatten_cons]
        rw [List.append_assoc, List.append_assoc]
        exact List.Perm.append_left l List.perm_append_comm
    · rw [addToGroup, if_neg hs]
      by_cases hse : s = ""
      · have hp : ¬ ((s != "") = true) := by simp [hse]
        simp only [List.filter_cons, if_neg hp]
        exact ih
      · have hp : ((s != "") = true) := by simp [hse]
        simp only [List.filter_cons, if_pos hp, List.map_cons, List.flatten_cons]
        rw [List.append_assoc]
        exact List.Perm.append_left l ih

/-- The grouping fold distributes the non-empty-subnet records of the
processed entries into the reported union. -/
theorem flatten_filter_foldl :
    ∀ (mm : AddressInfoMap) (g : List (String × List AddressInfo)),
      ((((mm.foldl (fun g e => addToGroup g (Prod.snd e)) g).filter
          fun e => Prod.fst e != "").map Prod.snd).flatten).Perm
        ((((g.filter fun e => Prod.fst e != "").map Prod.snd).flatten) ++
          ((mm.map Prod.snd).filter fun r => r.Subnet != "")) := by
  intro mm
  induction mm with
  | nil => intro g; simp
  | cons kv rest ih =>
    intro g
    simp only [List.foldl_cons, List.map_cons, List.filter_cons]
    refine (ih _).trans ?_
    refine (List.Perm.append_right _ (flatten_filter_addToGroup _ g)).trans ?_
    rw [List.append_assoc]
    refine List.Perm.append_left _ ?_
    by_cases hs : (Prod.snd kv).Subnet = ""
    · simp [hs]
    · simp [hs]

/-- C8.  The grouping is a partition: a record with a non-empty subnet
lies in exactly one bucket of `groupBySubnet`, and the union of the
non-empty-subnet buckets is, up to order, the merged record set minus the
empty-subnet records. -/
theorem groupBySubnet_partition (m : AddressInfoMap) (r : AddressInfo)
    (hmem : r ∈ m.map Prod.snd) (hsub : r.Subnet ≠ "") :
    (∃! e, e ∈ groupBySubnet m ∧ r ∈ Prod.snd e) ∧
    ((((groupBySubnet m).filter fun e => Prod.fst e != "").map
        Prod.snd).flatten).Perm
      ((m.map Prod.snd).filter fun a => a.Subnet != "") := by
  constructor
  · obtain ⟨l, hl, hrl⟩ := groupBySubnet_retains m r hmem
    have hmem2 : (r.Subnet, l) ∈ groupBySubnet m := lookup_mem _ _ _ hl
    refine ⟨(r.Subnet, l), ⟨hmem2, hrl⟩, ?_⟩
    rintro e ⟨he, hre⟩
    have h1 : Prod.fst e = r.Subnet :=
      (groupBySubnet_coherent m e he r hre).symm
    exact List.inj_on_of_nodup_map (groupBySubnet_keys_nodup m) he hmem2 (by rw [h1])
  · simpa using flatten_filter_foldl m []

/-- C8 witness: the partition theorem on a concrete merged map holding one
record with a subnet and one without. -/
theorem groupBySubnet_partition_witness :
    (∃! e, e ∈ groupBySubnet
        [("10.0.0.11", ⟨"p11", "10.0.0.11", "RESERVED", "sub11", ""⟩),
         ("10.0.0.12", ⟨"p12", "10.0.0.12", "", "", "vm12"⟩)] ∧
      (⟨"p11", "10.0.0.11", "RESERVED", "sub11", ""⟩ : AddressInfo) ∈ Prod.snd e) ∧
    ((((groupBySubnet
        [("10.0.0.11", ⟨"p11", "10.0.0.11", "RESERVED", "sub11", ""⟩),
         ("10.0.0.12", ⟨"p12", "10.0.0.12", "", "", "vm12"⟩)]).filter
          fun e => Prod.fst e != "").map Prod.snd).flatten).Perm
      (([("10.0.0.11", (⟨"p11", "10.0.0.11", "RESERVED", "sub11", ""⟩ : AddressInfo)),
         ("10.0.0.12", (⟨"p12", "10.0.0.12", "", "", "vm12"⟩ : AddressInfo))].map
          Prod.snd).filter fun a => a.Subnet != "") :=
  groupBySubnet_partition _ _ (by decide) (by decide)

end GcpIps
